import Mathlib

/-!
Verification of the TypeScript declaration generator in
src/scripts/apitypings/main.go.

The Go program inspects a type-checked Go package and emits TypeScript
declarations.  This file gives a shallow embedding of the parts of the
generator that the checked properties are about:

* the enum emission loop of generateAll (main.go lines 306-340),
* the pluralization of enum array constant names (lines 326-332),
* the recursive type mapper typescriptType (lines 735-1064),
* the struct builder buildStruct (lines 525-695),
* the deterministic output assembly TypescriptTypes.String (lines 115-155),
* the allow-list fixpoint loop of main (lines 71-86).

Go maps are modelled as association lists; a nil Go map is modelled as
Option.none (a write into a nil map is a runtime panic, which the
embedding surfaces as an explicit crash result).  Go errors are modelled
with Except.
-/

namespace Apitypings

/-- Result of a Go computation: a normal xerrors error (`err`) or a runtime
panic (`crash`, e.g. writing to a nil map). -/
inductive GoErr where
  | err (msg : String)
  | crash (msg : String)
deriving DecidableEq, Repr

deriving instance DecidableEq for Except

/-- Wrap a returned error with a message prefix, the way
`xerrors.Errorf("...: %w", err)` does; a runtime panic is not wrapped. -/
def wrapGoErr (pre : String) : Except GoErr α → Except GoErr α
  | .error (.err m) => .error (.err (pre ++ m))
  | other => other

/-- The indentation unit, main.go line 42. -/
def indent : String := "  "

/-- main.go line 1102: an indented `// ...` comment line. -/
def indentedComment (comment : String) : String :=
  indent ++ "// " ++ comment

/-- fmt's %q verb on a plain ASCII identifier: wrap it in double quotes. -/
def goQuote (s : String) : String := "\"" ++ s ++ "\""

/-- Association-list lookup, modelling a read from a Go `map[string]string`. -/
def lookupA (m : List (String × String)) (k : String) : Option String :=
  (m.find? (fun p => p.1 == k)).map (·.2)

/-- Go compares strings bytewise; for the ASCII strings the generator
handles this is the same as comparing character code points position by
position. -/
def goCharListLe : List Char → List Char → Bool
  | [], _ => true
  | _ :: _, [] => false
  | a :: as, b :: bs =>
    if a.toNat < b.toNat then true
    else if b.toNat < a.toNat then false
    else goCharListLe as bs

/-- Go `a <= b` on strings. -/
def goStringLe (a b : String) : Bool := goCharListLe a.data b.data

/-- The ordering relation used by the sort below. -/
def goLe (a b : String) : Prop := goStringLe a b = true

instance : DecidableRel goLe := fun a b => by unfold goLe; infer_instance

/-- Lexicographic string sort, modelling Go `sort.Strings`.  Since the
order is total and antisymmetric, the sorted permutation of a list is
unique, so any correct sorting algorithm computes the same result list
as Go's. -/
def sortStrings (l : List String) : List String :=
  List.insertionSort goLe l

/-- Go `strings.HasSuffix(s, suffix)`. -/
def goHasSuffix (s suffixStr : String) : Bool :=
  suffixStr.data.isSuffixOf s.data

/-! ## Enum emission (generateAll, main.go lines 306-340)

For an enum named `name`, generateAll collects the literal values
(`elem.Val().String()`, i.e. quoted Go literals) of every constant whose
declared type is the enum, sorts them in place with `sort.Strings`, and
emits the union type plus the companion array constant. -/

/-- The value list of one enum code block: main.go lines 309-315.  The
constant values are sorted; the source applies no deduplication. -/
def enumValues (constLits : List String) : List String :=
  sortStrings constLits

/-- main.go lines 327-332: the name of the companion array constant. -/
def pluralize (name : String) : String :=
  if goHasSuffix name "s" then name ++ "es" else name ++ "s"

/-- One enum code block: main.go lines 308-339.  `posLine` is the
provenance comment produced by posLine (including its newline);
`constLits` are the literal values of the enum constants in scope order. -/
def enumBlock (posLine name : String) (constLits : List String) : String :=
  let values := enumValues constLits
  let joined0 := String.intercalate " | " values
  let joined := if joined0 == "" then "never" else joined0
  posLine ++ "export type " ++ name ++ " = " ++ joined ++ "\n" ++
    "export const " ++ pluralize name ++ ": " ++ name ++ "[] = [" ++
    String.intercalate ", " values ++ "]\n"

/-! ## The type mapper (typescriptType, main.go lines 735-1064)

The mapper is a recursive function from a Go type to a TypescriptType
descriptor.  The fragment embedded here covers the cases the checked
properties quantify over: basic types, anonymous structs, maps, slices,
arrays, pointers, interfaces and type parameters.  (The *types.Named case,
lines 827-982, resolves named references against the scopes and is not
needed by any of the properties below; the builtin registration side
effect of the TypeParam case, line 1047, only feeds the generics output
group and does not affect the returned TypescriptType.) -/

/-- go/types basic kinds used by the generator.  In go/types, `byte` is an
alias for `uint8` (same kind value, different spelling) and `rune` an
alias for `int32`. -/
inductive BasicKind where
  | bool | int | int8 | int16 | int32 | int64
  | uint | uint8 | uint16 | uint32 | uint64 | uintptr
  | float32 | float64 | complex64 | complex128
  | string | byte | rune
deriving DecidableEq, Repr

/-- `bs.Info()&types.IsNumeric > 0`.  In go/types,
`IsNumeric = IsInteger | IsFloat | IsComplex`, so every kind except bool
and string is numeric (including byte, which is uint8). -/
def BasicKind.isNumeric : BasicKind → Bool
  | .bool => false
  | .string => false
  | _ => true

/-- `bs.Info()&types.IsBoolean > 0`. -/
def BasicKind.isBoolean : BasicKind → Bool
  | .bool => true
  | _ => false

/-- `bs.Kind() == types.Byte`.  types.Byte and types.Uint8 are the same
kind constant, so both spellings satisfy the comparison. -/
def BasicKind.kindIsByte : BasicKind → Bool
  | .uint8 => true
  | .byte => true
  | _ => false

/-- `bs.Name()`: the spelling of the basic type. -/
def BasicKind.goName : BasicKind → String
  | .bool => "bool"
  | .int => "int"
  | .int8 => "int8"
  | .int16 => "int16"
  | .int32 => "int32"
  | .int64 => "int64"
  | .uint => "uint"
  | .uint8 => "uint8"
  | .uint16 => "uint16"
  | .uint32 => "uint32"
  | .uint64 => "uint64"
  | .uintptr => "uintptr"
  | .float32 => "float32"
  | .float64 => "float64"
  | .complex64 => "complex64"
  | .complex128 => "complex128"
  | .string => "string"
  | .byte => "byte"
  | .rune => "rune"

/-- The Go types the embedded mapper fragment covers.
`typeParam p c i`: a generic type parameter named `p` whose constraint,
after trimming the package path (main.go line 1027), is named `c`;
`i` records whether the constraint's underlying type is an interface. -/
inductive GoType where
  | basic (kind : BasicKind)
  | anonStruct
  | map (key val : GoType)
  | slice (elem : GoType)
  | array (elem : GoType)
  | pointer (elem : GoType)
  | iface (isEmpty : Bool)
  | typeParam (paramName constraintName : String) (constraintIsInterface : Bool)
deriving DecidableEq, Repr

/-- `arr.Elem().String() == "byte"` (main.go line 806).  Only the basic
type spelled `byte` renders as that bare string; `[]uint8` does not
match. -/
def GoType.stringIsByte : GoType → Bool
  | .basic k => k.goName == "byte"
  | _ => false

/-- main.go lines 697-728.  GenericTypes is a Go `map[string]string`; its
zero value is the nil map, modelled as `none`. -/
structure TypescriptType where
  genericTypes : Option (List (String × String)) := none
  genericValue : String := ""
  valueType : String := ""
  aboveTypeLine : String := ""
  optional : Bool := false
deriving DecidableEq, Repr

/-- A single Go map store `m[k] = v` on an association list. -/
def mapInsertGo (m : List (String × String)) (k v : String) :
    List (String × String) :=
  if (lookupA m k).isSome then
    m.map (fun p => if p.1 == k then (p.1, v) else p)
  else m ++ [(k, v)]

/-- main.go lines 787-790:
`mergeGens := keyType.GenericTypes` followed by
`for k, v := range valueType.GenericTypes { mergeGens[k] = v }`.
Ranging over a nil or empty map performs no store; a store into a nil
map is a Go runtime panic. -/
def mergeGenerics :
    Option (List (String × String)) → Option (List (String × String)) →
    Except GoErr (Option (List (String × String)))
  | kg, none => .ok kg
  | kg, some [] => .ok kg
  | none, some (_ :: _) => .error (.crash "assignment to entry in nil map")
  | some ks, some vs =>
      .ok (some (vs.foldl (fun acc p => mapInsertGo acc p.1 p.2) ks))

/-- main.go lines 1085-1100: the builtin generic constraints supported
even though they are external.  Returns whether the name is a builtin and
the static code block registered for it. -/
def isBuiltIn (name : String) : Bool × String :=
  if name == "comparable" then
    (true, "export type comparable = boolean | number | string | any")
  else if name == "any" then (true, "")
  else (false, "")

/-- typescriptType, main.go lines 735-1064, over the embedded fragment.
`scope` is the name set of `g.pkg.Types.Scope()` used by the TypeParam
case (line 1029). -/
def typescriptType (scope : List String) : GoType → Except GoErr TypescriptType
  | .basic k =>
    -- main.go lines 737-750.  The IsNumeric case precedes the Byte case;
    -- since byte is numeric, the dedicated Byte case is unreachable.
    if k.isNumeric then .ok { valueType := "number" }
    else if k.isBoolean then .ok { valueType := "boolean" }
    else if k.kindIsByte then
      .ok { valueType := "number",
            aboveTypeLine := indentedComment "This is a byte in golang" }
    else .ok { valueType := k.goName }
  | .anonStruct =>
    -- main.go lines 751-768: anonymous structs degrade to any.
    .ok { valueType := "any",
          aboveTypeLine :=
            indentedComment "Embedded anonymous struct, please fix by naming it"
              ++ "\n" ++
            indentedComment "eslint-disable-next-line @typescript-eslint/no-explicit-any -- Anonymously embedded struct" }
  | .map k v => do
    -- main.go lines 769-795.  Both recursive error wraps say "map key"
    -- in the source.
    let keyType ← wrapGoErr "map key: " (typescriptType scope k)
    let valueType ← wrapGoErr "map key: " (typescriptType scope v)
    let above0 := keyType.aboveTypeLine
    let above1 :=
      if above0 ≠ "" ∧ valueType.aboveTypeLine ≠ "" then above0 ++ "\n"
      else above0
    let merged ← mergeGenerics keyType.genericTypes valueType.genericTypes
    .ok { valueType :=
            "Record<" ++ keyType.valueType ++ ", " ++ valueType.valueType ++ ">",
          aboveTypeLine := above1 ++ valueType.aboveTypeLine,
          genericTypes := merged }
  | .slice e =>
    -- main.go lines 796-826 (one case for slices and arrays).
    if e.stringIsByte then .ok { valueType := "string" }
    else do
      let u ← wrapGoErr "array: " (typescriptType scope e)
      .ok { valueType := u.valueType ++ "[]",
            genericValue :=
              if u.genericValue ≠ "" then u.genericValue ++ "[]" else "",
            aboveTypeLine := u.aboveTypeLine,
            genericTypes := u.genericTypes }
  | .array e =>
    if e.stringIsByte then .ok { valueType := "string" }
    else do
      let u ← wrapGoErr "array: " (typescriptType scope e)
      .ok { valueType := u.valueType ++ "[]",
            genericValue :=
              if u.genericValue ≠ "" then u.genericValue ++ "[]" else "",
            aboveTypeLine := u.aboveTypeLine,
            genericTypes := u.genericTypes }
  | .pointer e => do
    -- main.go lines 983-991: dereference and force optional.
    let r ← wrapGoErr "pointer: " (typescriptType scope e)
    .ok { r with optional := true }
  | .iface isEmpty =>
    -- main.go lines 992-1014.
    if isEmpty then
      .ok { valueType := "any",
            aboveTypeLine :=
              indentedComment "Empty interface\x7b\x7d type, cannot resolve the type."
                ++ "\n" ++
              indentedComment "eslint-disable-next-line @typescript-eslint/no-explicit-any -- interface\x7b\x7d" }
    else
      .ok { valueType := "any",
            aboveTypeLine :=
              indentedComment "eslint-disable-next-line @typescript-eslint/no-explicit-any -- Golang interface, unable to resolve type.",
            optional := false }
  | .typeParam pname cname constraintIsInterface =>
    -- main.go lines 1015-1058.
    if !constraintIsInterface then .error (.err "type param must be an interface")
    else if scope.contains cname ∨ (isBuiltIn cname).1 then
      .ok { genericTypes := some [(pname, cname)],
            genericValue := pname,
            valueType := cname }
    else
      .ok { genericTypes := some [(pname, "any")],
            genericValue := pname,
            valueType := "any",
            aboveTypeLine :=
              "// " ++ goQuote cname ++ " is an external type, so we use any" }

/-! ## The struct builder (buildStruct, main.go lines 525-695)

A struct declaration is built field by field.  A first pass (lines
540-551) marks the embedded fields that become `extends` clauses; the
main loop (lines 558-650) emits one interface member per remaining
field; finally the declared generic parameters are reconciled against
the generics discovered in the fields (lines 656-687) and the template
(lines 517-522) renders the result. -/

/-- Split a character list on a separator character (the empty input
yields one empty group), modelling Go's strings.Split as used by
structtag on tag values. -/
def splitCharsOn (c : Char) : List Char → List (List Char)
  | [] => [[]]
  | a :: as =>
    if a == c then [] :: splitCharsOn c as
    else
      match splitCharsOn c as with
      | [] => [[a]]
      | g :: gs => (a :: g) :: gs

/-- structtag's Name for a raw tag value: the part before the first
comma. -/
def tagName (raw : String) : String :=
  String.mk ((splitCharsOn ',' raw.data).headD [])

/-- structtag's Options for a raw tag value: the parts after the first
comma. -/
def tagOptions (raw : String) : List String :=
  ((splitCharsOn ',' raw.data).tail).map String.mk

/-- A struct field as the generator sees it.  `pkgName` is
`field.Pkg().Name()`, the name of the package the field's declaration
lives in.  `jsonTag` and `typescriptTag` are the raw tag values;
`none` models an absent key (for which `reflect.StructTag.Get` returns
`""` and `structtag.Tags.Get` returns an error). -/
structure GoField where
  name : String
  exported : Bool
  embedded : Bool
  pkgName : String
  jsonTag : Option String
  typescriptTag : Option String
  ty : GoType
deriving DecidableEq, Repr

/-- `reflect.StructTag.Get("json")`: the raw value, or "" when absent. -/
def jsonGet (f : GoField) : String := f.jsonTag.getD ""

/-- A struct type declaration.  `name` is `obj.Name()`, `pkgName` the
declaring package's name, `posLine` the provenance comment (with its
newline), `typeParams` the declared generic parameter names in
declaration order (`namedType.TypeParams()`). -/
structure GoStructDecl where
  name : String
  pkgName : String
  posLine : String
  typeParams : List String
  fields : List GoField
deriving DecidableEq, Repr

/-- main.go lines 359-364: prepend the title-cased package name for
declarations outside codersdk/healthsdk.  `cases.Title` upper-cases the
first letter of the (single-word, ASCII) package name. -/
def titleCase (s : String) : String :=
  match s.data with
  | [] => ""
  | c :: cs => String.mk (c.toUpper :: cs)

/-- objName, main.go lines 359-364. -/
def objName (pkgName name : String) : String :=
  if pkgName ≠ "codersdk" ∧ pkgName ≠ "healthsdk" then titleCase pkgName ++ name
  else name

/-- main.go line 547: the condition under which an embedded field is
turned into an `extends` clause.  The package name is compared against
the literal "codersdk". -/
def isExtendEligible (f : GoField) : Bool :=
  f.embedded && jsonGet f == "" && f.pkgName == "codersdk"

/-- main.go lines 632-642: add the generics discovered in one field to
the used-generics map; a name already present is not overwritten. -/
def foldBindings (gUsed : List (String × String))
    (bs : Option (List (String × String))) : List (String × String) :=
  match bs with
  | none => gUsed
  | some l =>
    l.foldl (fun acc p =>
      if (lookupA acc p.1).isSome then acc else acc ++ [(p.1, p.2)]) gUsed

/-- main.go lines 619-649: assemble the emitted lines of one field from
its mapped type, and update the used-generics map. -/
def finishField (jsonName : String) (jsonOptional : Bool) (t : TypescriptType)
    (gUsed : List (String × String)) :
    Except GoErr (List String × List (String × String)) :=
  let optStr := if jsonOptional || t.optional then "?" else ""
  let (valueType, gUsed') :=
    if t.genericValue ≠ "" then (t.genericValue, foldBindings gUsed t.genericTypes)
    else (t.valueType, gUsed)
  let lines :=
    (if t.aboveTypeLine ≠ "" then [t.aboveTypeLine] else []) ++
      [indent ++ "readonly " ++ jsonName ++ optStr ++ ": " ++ valueType]
  .ok (lines, gUsed')

/-- main.go lines 593-649: map the field's type, apply the typescript
override tag, then emit.  The type is mapped before the `typescript:"-"`
skip is applied, so an unsupported type fails the build even on a field
the override would drop. -/
def emitFieldTyped (scope : List String) (f : GoField) (jsonName : String)
    (jsonOptional : Bool) (gUsed : List (String × String)) :
    Except GoErr (List String × List (String × String)) :=
  match wrapGoErr "typescript type: " (typescriptType scope f.ty) with
  | .error e => .error e
  | .ok t0 =>
    match f.typescriptTag with
    | some raw =>
      if tagName raw == "-" then .ok ([], gUsed)
      else
        let t1 := if tagName raw ≠ "" then { valueType := tagName raw } else t0
        let t2 := if (tagOptions raw).headD "" == "notnull" then
            { t1 with optional := false } else t1
        finishField jsonName jsonOptional t2 gUsed
    | none => finishField jsonName jsonOptional t0 gUsed

/-- The body of the per-field loop, main.go lines 558-650, for one
field that was not marked extended. -/
def emitField (scope : List String) (f : GoField)
    (gUsed : List (String × String)) :
    Except GoErr (List String × List (String × String)) :=
  if f.exported = false then .ok ([], gUsed)
  else
    match f.jsonTag with
    | some raw =>
      if tagName raw == "-" then .ok ([], gUsed)
      else
        emitFieldTyped scope f
          (if tagName raw == "" then f.name else tagName raw)
          ((tagOptions raw).headD "" == "omitempty") gUsed
    | none => emitFieldTyped scope f f.name false gUsed

/-- The per-field loop over the non-extended fields, threading the
used-generics map and concatenating the emitted lines. -/
def fieldsLoop (scope : List String) :
    List GoField → List (String × String) →
    Except GoErr (List String × List (String × String))
  | [], gUsed => .ok ([], gUsed)
  | f :: fs, gUsed =>
    match emitField scope f gUsed with
    | .error e => .error e
    | .ok (out, g1) =>
      match fieldsLoop scope fs g1 with
      | .error e => .error e
      | .ok (rest, g2) => .ok (out ++ rest, g2)

/-- The main loop of buildStruct: fields whose index is in
`extendedFields` are skipped (main.go line 559); a field is in
`extendedFields` exactly when it satisfies `isExtendEligible`, so the
skip is the same as filtering by the predicate. -/
def fieldsPhase (scope : List String) (d : GoStructDecl) :
    Except GoErr (List String × List (String × String)) :=
  fieldsLoop scope (d.fields.filter (fun f => !isExtendEligible f)) []

/-- The used-generics map discovered while emitting a declaration's
fields (`genericsUsed`, main.go line 556). -/
def discoveredBindings (scope : List String) (d : GoStructDecl) :
    Except GoErr (List (String × String)) :=
  (fieldsPhase scope d).map (·.2)

/-- main.go lines 666-687: walk the declared type parameters in
declaration order; a parameter absent from the used-generics map is a
hard error naming the parameter and the declaration. -/
def reconcileGenerics (gUsed : List (String × String)) (declName : String) :
    List String → Except GoErr (List String)
  | [] => .ok []
  | p :: ps =>
    match lookupA gUsed p with
    | none =>
      .error (.err ("generic param " ++ goQuote p ++ " missing on " ++
        goQuote declName ++ ", fix your data structure"))
    | some c =>
      (reconcileGenerics gUsed declName ps).map
        (fun rest => (p ++ " extends " ++ c) :: rest)

/-- The three computed parts of a struct declaration before template
rendering: the extends clauses, the emitted member lines, and the
generic parameter list. -/
structure StructParts where
  extendsList : List String
  fieldLines : List String
  generics : List String
deriving DecidableEq, Repr

/-- buildStruct up to template rendering, main.go lines 525-687. -/
def buildStructParts (scope : List String) (d : GoStructDecl) :
    Except GoErr StructParts :=
  match fieldsPhase scope d with
  | .error e => .error e
  | .ok (lines, gUsed) =>
    match reconcileGenerics gUsed d.name d.typeParams with
    | .error e => .error e
    | .ok gens =>
      .ok ⟨(d.fields.filter isExtendEligible).map GoField.name, lines, gens⟩

/-- The struct template, main.go lines 517-522, applied to the computed
parts.  `state.AboveLine` is never assigned in buildStruct, so the
template's AboveLine branch never fires. -/
def renderStruct (d : GoStructDecl) (p : StructParts) : String :=
  let extendsStr := String.intercalate ", " p.extendsList
  d.posLine ++ "export interface " ++ objName d.pkgName d.name ++
    (if p.generics ≠ [] then
      "<" ++ String.intercalate ", " p.generics ++ ">" else "") ++
    (if extendsStr ≠ "" then " extends " ++ extendsStr else "") ++
    " \x7b\n" ++ String.intercalate "\n" p.fieldLines ++ "\n\x7d\n"

/-- buildStruct, main.go lines 525-695. -/
def buildStruct (scope : List String) (d : GoStructDecl) :
    Except GoErr String :=
  (buildStructParts scope d).map (renderStruct d)

/-! ## Output assembly (TypescriptTypes.String, main.go lines 106-155)

The three code-block groups are Go maps from declaration name to code
block (modelled as association lists).  String() collects each group's
keys, sorts them, and concatenates the blocks in sorted key order,
finally trimming trailing newlines. -/

/-- Go `strings.TrimRight(s, "\n")`. -/
def trimRightNl (s : String) : String :=
  String.mk ((s.data.reverse.dropWhile (fun c => c == '\n')).reverse)

/-- Emit one group: sort the keys, then append each block plus a
newline (main.go lines 118-152). -/
def mapString (m : List (String × String)) : String :=
  String.join ((sortStrings (m.map Prod.fst)).map
    (fun k => (lookupA m k).getD "" ++ "\n"))

/-- TypescriptTypes.String, main.go lines 115-155. -/
def tsString (types enums generics : List (String × String)) : String :=
  trimRightNl (mapString types ++ mapString enums ++ mapString generics)

/-! ## The external allow-list fixpoint loop (main, main.go lines 71-86)

For each external generator the driver repeatedly calls generateAll,
comparing the allow-list length before and after; it stops as soon as a
pass leaves the length unchanged.  `gen` abstracts one full generateAll
pass as its effect on the allow-list; the loop itself is given fuel and
returns `none` when the fuel runs out, so termination is the statement
that enough fuel exists. -/

def extFixpointLoop (gen : List String → List String) :
    Nat → List String → Option (List String)
  | 0, _ => none
  | fuel + 1, al =>
    let al2 := gen al
    if al2.length = al.length then some al2
    else extFixpointLoop gen fuel al2

/-- The number of distinct scope declaration names not yet on the
allow-list: the termination measure of the loop. -/
def missingCount (scopeNames al : List String) : Nat :=
  (scopeNames.dedup.filter (fun n => !al.contains n)).length

end Apitypings

namespace Apitypings

/-! ## Order theory for the string comparison -/

theorem goCharListLe_trans :
    ∀ {a b c : List Char}, goCharListLe a b = true → goCharListLe b c = true →
      goCharListLe a c = true := by
  intro a
  induction a with
  | nil => intro b c _ _; rfl
  | cons x xs ih =>
    intro b c hab hbc
    cases b with
    | nil => simp [goCharListLe] at hab
    | cons y ys =>
      cases c with
      | nil => simp [goCharListLe] at hbc
      | cons z zs =>
        simp only [goCharListLe] at hab hbc ⊢
        by_cases hxy : x.toNat < y.toNat
        · by_cases hyz : y.toNat < z.toNat
          · have : x.toNat < z.toNat := Nat.lt_trans hxy hyz
            simp [this]
          · simp only [hyz, if_neg, if_pos, hxy, ite_true, ite_false] at hbc ⊢
            by_cases hzy : z.toNat < y.toNat
            · simp [hzy] at hbc
            · have hyz' : y.toNat = z.toNat := Nat.le_antisymm
                (Nat.le_of_not_lt hzy) (Nat.le_of_not_lt hyz)
              have : x.toNat < z.toNat := hyz' ▸ hxy
              simp [this]
        · by_cases hyx : y.toNat < x.toNat
          · simp [hxy, hyx] at hab
          · have hxy' : x.toNat = y.toNat := Nat.le_antisymm
              (Nat.le_of_not_lt hyx) (Nat.le_of_not_lt hxy)
            simp only [hxy, hyx, ite_false, if_neg] at hab
            by_cases hyz : y.toNat < z.toNat
            · have : x.toNat < z.toNat := hxy' ▸ hyz
              simp [this]
            · by_cases hzy : z.toNat < y.toNat
              · simp [hyz, hzy] at hbc
              · have hyz' : y.toNat = z.toNat := Nat.le_antisymm
                  (Nat.le_of_not_lt hzy) (Nat.le_of_not_lt hyz)
                simp only [hyz, hzy, ite_false, if_neg] at hbc
                have hxz : ¬ x.toNat < z.toNat := by omega
                have hzx : ¬ z.toNat < x.toNat := by omega
                simp only [hxz, hzx, ite_false, if_neg]
                exact ih hab hbc

theorem goCharListLe_total :
    ∀ (a b : List Char), goCharListLe a b = true ∨ goCharListLe b a = true := by
  intro a
  induction a with
  | nil => intro b; left; rfl
  | cons x xs ih =>
    intro b
    cases b with
    | nil => right; rfl
    | cons y ys =>
      simp only [goCharListLe]
      by_cases hxy : x.toNat < y.toNat
      · left; simp [hxy]
      · by_cases hyx : y.toNat < x.toNat
        · right; simp [hyx]
        · rcases ih ys with h | h
          · left; simp [hxy, hyx, h]
          · right; simp [hxy, hyx, h]

theorem goCharListLe_antisymm :
    ∀ {a b : List Char}, goCharListLe a b = true → goCharListLe b a = true →
      a = b := by
  intro a
  induction a with
  | nil =>
    intro b _ hba
    cases b with
    | nil => rfl
    | cons y ys => simp [goCharListLe] at hba
  | cons x xs ih =>
    intro b hab hba
    cases b with
    | nil => simp [goCharListLe] at hab
    | cons y ys =>
      simp only [goCharListLe] at hab hba
      by_cases hxy : x.toNat < y.toNat
      · have hyx : ¬ y.toNat < x.toNat := by omega
        simp [hxy, hyx] at hba
      · by_cases hyx : y.toNat < x.toNat
        · simp [hxy, hyx] at hab
        · have hxy' : x = y := Char.ext (UInt32.ext (Nat.le_antisymm
            (Nat.le_of_not_lt hyx) (Nat.le_of_not_lt hxy)))
          simp only [hxy, hyx, ite_false, if_neg] at hab hba
          rw [hxy', ih hab hba]

instance : IsTrans String goLe :=
  ⟨fun _ _ _ hab hbc => goCharListLe_trans hab hbc⟩

instance : IsTotal String goLe :=
  ⟨fun a b => goCharListLe_total a.data b.data⟩

instance : IsAntisymm String goLe :=
  ⟨fun a b hab hba => by
    cases a; cases b
    exact congrArg String.mk (goCharListLe_antisymm hab hba)⟩

/-- sortStrings returns a sorted permutation of its input. -/
theorem sortStrings_perm (l : List String) : (sortStrings l).Perm l :=
  List.perm_insertionSort _ l

/-- sortStrings output is sorted. -/
theorem sortStrings_sorted (l : List String) :
    (sortStrings l).Sorted goLe :=
  List.sorted_insertionSort _ l

/-- String append is associative. -/
theorem str_append_assoc (a b c : String) : a ++ b ++ c = a ++ (b ++ c) := by
  cases a; cases b; cases c
  exact congrArg String.mk (List.append_assoc ..)

/-! ## C1: enum literal sets -/

/-- C1 counterexample: a scalar-alias type T with three typed constants
whose literal values are "b", "a", "a" (two distinct constants sharing
the value "a").  The claim says the emitted union and array are
deduplicated, i.e. the block would read
`export type T = "a" | "b"` / `export const Ts: T[] = ["a", "b"]`.
The code (main.go lines 308-339) sorts the values but never
deduplicates them, so the duplicate value appears twice in both the
union and the array. -/
theorem enum_dup_values_not_deduped_cex :
    enumBlock "" "T" ["\"b\"", "\"a\"", "\"a\""] =
      "export type T = \"a\" | \"a\" | \"b\"\nexport const Ts: T[] = [\"a\", \"a\", \"b\"]\n" ∧
    enumBlock "" "T" ["\"b\"", "\"a\"", "\"a\""] ≠
      "export type T = \"a\" | \"b\"\nexport const Ts: T[] = [\"a\", \"b\"]\n" := by
  constructor <;> decide

/-- C1 (amended): the value list emitted for an enum (used verbatim for
both the literal union and the companion array, main.go lines 309-337)
is the lexicographically sorted *permutation* of its typed constants'
literal values: sorted, but with duplicates preserved, so two constants
with the same literal value contribute that value twice. -/
theorem enum_values_sorted_not_deduped (constLits : List String) :
    (enumValues constLits).Perm constLits ∧
      (enumValues constLits).Sorted goLe :=
  ⟨sortStrings_perm constLits, sortStrings_sorted constLits⟩

/-! ## C9: pluralization of the companion array name -/

/-- C9: the companion array constant emitted by enumBlock is named by
pluralizing the enum type name: append "es" when the name ends in "s",
otherwise append "s" (main.go lines 326-332). -/
theorem pluralize_rule (name : String) :
    (goHasSuffix name "s" = true → pluralize name = name ++ "es") ∧
      (goHasSuffix name "s" = false → pluralize name = name ++ "s") := by
  constructor <;> intro h <;> simp [pluralize, h]

/-- C9 witness: Status pluralizes to Statuses, Bus to Buses. -/
theorem pluralize_rule_witness :
    pluralize "Status" = "Statuses" ∧ pluralize "Bus" = "Buses" := by
  refine ⟨?_, ?_⟩
  · rw [(pluralize_rule "Status").1 (by decide)]; rfl
  · rw [(pluralize_rule "Bus").1 (by decide)]; rfl

/-! ## C10: enums with no constants -/

/-- C10: a scalar-alias declaration with zero typed constants in scope
still generates successfully: the union degenerates to `never`
(main.go lines 318-322) and the companion array is empty. -/
theorem empty_enum_never (posLine name : String) :
    enumBlock posLine name [] =
      posLine ++ "export type " ++ name ++ " = never\n" ++
        "export const " ++ pluralize name ++ ": " ++ name ++ "[] = []\n" := by
  show posLine ++ "export type " ++ name ++ " = " ++ "never" ++ "\n" ++
      "export const " ++ pluralize name ++ ": " ++ name ++ "[] = [" ++
      String.intercalate ", " (enumValues []) ++ "]\n" = _
  simp only [str_append_assoc]
  rfl

/-! ## C3: single-byte integer fields -/

/-- C3: a field whose type is the single-byte kind (byte = uint8) is
mapped to `number` with an *empty* AboveTypeLine.  The dedicated Byte
case of typescriptType (main.go lines 745-747), which would attach the
"This is a byte in golang" comment, is dead code: byte satisfies
IsNumeric, so the numeric case on line 741 fires first.  This
contradicts the claim, which requires a non-empty explanatory comment. -/
theorem byte_field_comment_missing :
    typescriptType [] (.basic .byte) =
        .ok { valueType := "number", aboveTypeLine := "" } ∧
      typescriptType [] (.basic .uint8) =
        .ok { valueType := "number", aboveTypeLine := "" } := ⟨rfl, rfl⟩

/-! ## C4: map types and generic-binding merges -/

/-- C4: mapping `map[string]T` (T a type parameter constrained by
`comparable`) crashes instead of returning a merged Record type.  The
key side's GenericTypes is the nil map, and the merge loop
(main.go lines 787-790) stores the value side's binding into it, which
is a Go runtime panic (assignment to entry in nil map). -/
theorem map_generic_value_nil_map_crash :
    typescriptType [] (.map (.basic .string) (.typeParam "T" "comparable" true)) =
      .error (.crash "assignment to entry in nil map") := rfl

/-! ## C2: the allow-list fixpoint loop terminates -/

/-- Appending names that are missing from the allow-list strictly
decreases the number of missing scope names. -/
theorem missingCount_append_lt (scopeNames al : List String)
    (n0 : String) (rest : List String)
    (hnew : ∀ n ∈ n0 :: rest, n ∈ scopeNames ∧ n ∉ al) :
    missingCount scopeNames (al ++ n0 :: rest) < missingCount scopeNames al := by
  unfold missingCount
  have hsplit :
      scopeNames.dedup.filter (fun n => !(al ++ n0 :: rest).contains n) =
        (scopeNames.dedup.filter (fun n => !al.contains n)).filter
          (fun n => !(n0 :: rest).contains n) := by
    rw [List.filter_filter]
    apply List.filter_congr
    intro a _
    by_cases h1 : a ∈ al <;> by_cases h2 : a ∈ n0 :: rest <;>
      simp [List.contains, List.elem_iff, h1, h2, List.mem_append]
  rw [hsplit]
  apply List.length_filter_lt_length_iff_exists.mpr
  refine ⟨n0, ?_, ?_⟩
  · have h0 := hnew n0 (List.mem_cons_self ..)
    simp only [List.mem_filter, List.mem_dedup]
    refine ⟨h0.1, ?_⟩
    simp [List.contains, List.elem_iff, h0.2]
  · simp [List.contains, List.elem_iff]

/-- With fuel exceeding the missing-name count, the loop reaches an
allow-list the generation pass leaves unchanged. -/
theorem extFixpointLoop_converges (gen : List String → List String)
    (scopeNames : List String)
    (hgen : ∀ al, ∃ new, gen al = al ++ new ∧ ∀ n ∈ new, n ∈ scopeNames ∧ n ∉ al) :
    ∀ fuel al, missingCount scopeNames al < fuel →
      ∃ res, extFixpointLoop gen fuel al = some res ∧ gen res = res := by
  intro fuel
  induction fuel with
  | zero => intro al h; omega
  | succ f ih =>
    intro al h
    obtain ⟨new, hg, hnew⟩ := hgen al
    cases new with
    | nil =>
      have hga : gen al = al := by simpa using hg
      refine ⟨al, ?_, ?_⟩
      · simp [extFixpointLoop, hga]
      · rw [hga]
    | cons n0 rest =>
      have hlen : ¬ (gen al).length = al.length := by
        rw [hg, List.length_append]
        simp
      obtain ⟨res, hres, hfix⟩ := ih (gen al) (by
        rw [hg]
        have := missingCount_append_lt scopeNames al n0 rest hnew
        omega)
      refine ⟨res, ?_, hfix⟩
      simpa [extFixpointLoop, hlen] using hres

/-- C2: the generate-inspect-regenerate loop of main
(main.go lines 71-86) terminates.  `gen` is the effect of one full
generateAll pass on the external scope's allow-list; the hypothesis
captures the only append site reachable in an external scope's own
generation (main.go lines 909-916): names are only appended, each
appended name is a declaration of the scope, and the slices.Contains
guard means it was not already on the list.  The loop reaches a pass
that leaves the allow-list unchanged within (number of distinct scope
declarations + 1) passes, because the allow-list grows monotonically
and its growth is bounded by the scope's declaration count. -/
theorem allowlist_fixpoint_terminates (gen : List String → List String)
    (scopeNames : List String)
    (hgen : ∀ al, ∃ new, gen al = al ++ new ∧ ∀ n ∈ new, n ∈ scopeNames ∧ n ∉ al)
    (al0 : List String) :
    ∃ res, extFixpointLoop gen (scopeNames.dedup.length + 1) al0 = some res ∧
      gen res = res := by
  apply extFixpointLoop_converges gen scopeNames hgen
  have : missingCount scopeNames al0 ≤ scopeNames.dedup.length :=
    List.length_filter_le ..
  omega

/-- C2 witness: a one-declaration scope whose generation pass adds the
declaration "B" when it is missing; the loop converges with fuel 2. -/
theorem allowlist_fixpoint_terminates_witness :
    ∃ res,
      extFixpointLoop (fun al => if al.contains "B" then al else al ++ ["B"])
        ((["B"] : List String).dedup.length + 1) [] = some res ∧
      (fun al => if al.contains "B" then al else al ++ ["B"]) res = res := by
  apply allowlist_fixpoint_terminates
    (fun al => if al.contains "B" then al else al ++ ["B"]) ["B"]
  intro al
  by_cases h : ("B" : String) ∈ al
  · refine ⟨[], by simp [List.contains, List.elem_iff, h], by simp⟩
  · refine ⟨["B"], by simp [List.contains, List.elem_iff, h], ?_⟩
    intro n hn
    simp only [List.mem_singleton] at hn
    subst hn
    exact ⟨List.mem_singleton_self _, h⟩

/-! ## C8: deterministic output assembly -/

/-- Unfolding lookupA over a cons cell. -/
theorem lookupA_cons (x : String × String) (l : List (String × String))
    (k : String) :
    lookupA (x :: l) k = if x.1 == k then some x.2 else lookupA l k := by
  by_cases h : x.1 == k <;> simp [lookupA, List.find?, h]

/-- Map lookups are determined by the contents: permuting an association
list with no duplicate keys leaves every lookup unchanged. -/
theorem lookupA_perm :
    ∀ {l l' : List (String × String)}, l.Perm l' →
      (l.map Prod.fst).Nodup → ∀ k, lookupA l k = lookupA l' k := by
  intro l l' h
  induction h with
  | nil => intro _ _; rfl
  | cons x h ih =>
    intro hn k
    rw [List.map_cons] at hn
    rw [lookupA_cons, lookupA_cons]
    by_cases hx : x.1 == k
    · rw [if_pos hx, if_pos hx]
    · rw [if_neg hx, if_neg hx]
      exact ih (List.nodup_cons.mp hn).2 k
  | swap x y l =>
    intro hn k
    rw [List.map_cons, List.map_cons] at hn
    have hxy : y.1 ≠ x.1 := fun hc =>
      (List.nodup_cons.mp hn).1 (hc ▸ List.mem_cons_self ..)
    rw [lookupA_cons, lookupA_cons, lookupA_cons, lookupA_cons]
    by_cases h1 : x.1 == k <;> by_cases h2 : y.1 == k
    · exact absurd (by rw [eq_of_beq h2, eq_of_beq h1]) hxy
    · rw [if_neg h2, if_pos h1, if_pos h1]
    · rw [if_pos h2, if_neg h1, if_pos h2]
    · rw [if_neg h2, if_neg h1, if_neg h1, if_neg h2]
  | trans h1 h2 ih1 ih2 =>
    intro hn k
    exact (ih1 hn k).trans
      (ih2 ((h1.map Prod.fst).nodup_iff.mp hn) k)

/-- One output group is a function only of the group map's contents:
permuting the association list (with no duplicate keys) does not change
the emitted text, because the keys are sorted before emission. -/
theorem mapString_perm {m m' : List (String × String)} (h : m.Perm m')
    (hn : (m.map Prod.fst).Nodup) : mapString m = mapString m' := by
  unfold mapString
  have hkeys : sortStrings (m.map Prod.fst) = sortStrings (m'.map Prod.fst) := by
    apply List.eq_of_perm_of_sorted
      ((sortStrings_perm _).trans ((h.map Prod.fst).trans (sortStrings_perm _).symm))
      (sortStrings_sorted _) (sortStrings_sorted _)
  rw [hkeys]
  apply congrArg String.join
  apply List.map_congr_left
  intro k _
  rw [lookupA_perm h hn k]

/-- C8: TypescriptTypes.String (main.go lines 115-155) is a function
only of the contents of the three group maps: for any two runs whose
groups hold the same blocks (arbitrary insertion/discovery order,
modelled as permuted association lists with unique declaration names)
the rendered output text is identical; and each group is emitted in
lexicographically sorted order of declaration name. -/
theorem output_insertion_order_independent
    (t t' e e' g g' : List (String × String))
    (ht : t.Perm t') (he : e.Perm e') (hg : g.Perm g')
    (hnt : (t.map Prod.fst).Nodup) (hne : (e.map Prod.fst).Nodup)
    (hng : (g.map Prod.fst).Nodup) :
    tsString t e g = tsString t' e' g' ∧
      (sortStrings (t.map Prod.fst)).Sorted goLe := by
  refine ⟨?_, sortStrings_sorted _⟩
  unfold tsString
  rw [mapString_perm ht hnt, mapString_perm he hne, mapString_perm hg hng]

/-- C8 witness: two insertion orders of the same two record blocks
produce identical output. -/
theorem output_insertion_order_independent_witness :
    tsString [("B", "block B"), ("A", "block A")] [] [] =
        tsString [("A", "block A"), ("B", "block B")] [] [] ∧
      (sortStrings (([("B", "block B"), ("A", "block A")] :
        List (String × String)).map Prod.fst)).Sorted goLe :=
  output_insertion_order_independent _ _ _ _ _ _
    (List.Perm.swap _ _ _) (List.Perm.refl _) (List.Perm.refl _)
    (by decide) (by decide) (by decide)

/-! ## C5: embedded fields and extends clauses -/

/-- Appending the empty string is the identity. -/
theorem str_append_empty (s : String) : s ++ "" = s := by
  cases s
  exact congrArg String.mk (List.append_nil _)

/-- For an exported field with a plain (non-empty, non-"-", no-options)
json tag, no typescript tag, and a mapped type carrying no generic
value, no comment and no inferred optionality, the field loop body
emits exactly the one member line, independent of (and without
touching) the used-generics map. -/
theorem emitField_plain (scope : List String) (f : GoField) (raw : String)
    (t : TypescriptType)
    (hexp : f.exported = true) (hjson : f.jsonTag = some raw)
    (hname : tagName raw ≠ "") (hdash : tagName raw ≠ "-")
    (hopts : tagOptions raw = []) (hts : f.typescriptTag = none)
    (hty : typescriptType scope f.ty = .ok t)
    (hgv : t.genericValue = "") (habove : t.aboveTypeLine = "")
    (hopt : t.optional = false) :
    ∀ gUsed, emitField scope f gUsed =
      .ok ([indent ++ "readonly " ++ tagName raw ++ ": " ++ t.valueType],
        gUsed) := by
  intro gUsed
  unfold emitField
  rw [hexp, hjson]
  dsimp only
  rw [if_neg (by simp)]
  rw [if_neg (by simp [hdash])]
  rw [if_neg (by simp [hname]), hopts]
  unfold emitFieldTyped
  rw [hty]
  dsimp only [wrapGoErr]
  rw [hts]
  dsimp only
  unfold finishField
  rw [hgv, habove, hopt]
  simp [str_append_empty]

/-- If some field's loop body always emits the fixed line list `out`
without touching the used-generics map, then on a successful run of the
field loop every line of `out` appears among the emitted lines for each
occurrence of the field. -/
theorem fieldsLoop_mem (scope : List String) (f : GoField) (out : List String)
    (hconst : ∀ g, emitField scope f g = .ok (out, g)) :
    ∀ (fs : List GoField) (g0 : List (String × String)) (lines : List String)
      (gEnd : List (String × String)),
      f ∈ fs → fieldsLoop scope fs g0 = .ok (lines, gEnd) →
      ∀ x ∈ out, x ∈ lines := by
  intro fs
  induction fs with
  | nil => intro g0 lines gEnd hmem; cases hmem
  | cons f0 fs ih =>
    intro g0 lines gEnd hmem hloop x hx
    unfold fieldsLoop at hloop
    cases he : emitField scope f0 g0 with
    | error e => rw [he] at hloop; cases hloop
    | ok og =>
      obtain ⟨out0, g1⟩ := og
      rw [he] at hloop
      dsimp only at hloop
      cases hrest : fieldsLoop scope fs g1 with
      | error e => rw [hrest] at hloop; cases hloop
      | ok rg =>
        obtain ⟨rest, g2⟩ := rg
        rw [hrest] at hloop
        dsimp only at hloop
        simp only [Except.ok.injEq, Prod.mk.injEq] at hloop
        obtain ⟨hlines, _⟩ := hloop
        subst hlines
        rcases List.mem_cons.mp hmem with rfl | hmem'
        · have hinj := (hconst g0).symm.trans he
          simp only [Except.ok.injEq, Prod.mk.injEq] at hinj
          rw [← hinj.1]
          exact List.mem_append_left _ hx
        · exact List.mem_append_right _ (ih g1 rest g2 hmem' hrest x hx)

/-- C5 (amended): for every record that builds successfully,
(1) the extends clauses are exactly the names of the fields that are
embedded, have an empty json tag value, and are declared in the package
literally named "codersdk" (main.go line 547) — membership in the
record's own (primary) scope plays no role — and these fields are
skipped by the member loop; and
(2) an (embedded or not) exported field carrying an explicit plain json
tag is emitted as an ordinary named member line instead. -/
theorem embedded_extends_condition (scope : List String) (d : GoStructDecl)
    (p : StructParts) (hb : buildStructParts scope d = .ok p) :
    p.extendsList = (d.fields.filter isExtendEligible).map GoField.name ∧
    (∀ f ∈ d.fields, ∀ raw t,
      f.exported = true → f.jsonTag = some raw →
      tagName raw ≠ "" → tagName raw ≠ "-" → tagOptions raw = [] →
      f.typescriptTag = none →
      typescriptType scope f.ty = .ok t →
      t.genericValue = "" → t.aboveTypeLine = "" → t.optional = false →
      (indent ++ "readonly " ++ tagName raw ++ ": " ++ t.valueType)
        ∈ p.fieldLines) := by
  unfold buildStructParts at hb
  cases hfp : fieldsPhase scope d with
  | error e => rw [hfp] at hb; cases hb
  | ok lg =>
    obtain ⟨lines, gUsed⟩ := lg
    rw [hfp] at hb
    dsimp only at hb
    cases hr : reconcileGenerics gUsed d.name d.typeParams with
    | error e => rw [hr] at hb; cases hb
    | ok gens =>
      rw [hr] at hb
      dsimp only at hb
      cases hb
      refine ⟨rfl, ?_⟩
      intro f hf raw t hexp hjson hname hdash hopts hts hty hgv habove hopt
      have hraw : raw ≠ "" := fun hc => hname (by rw [hc]; rfl)
      have helig : isExtendEligible f = false := by
        unfold isExtendEligible jsonGet
        rw [hjson]
        simp [hraw]
      have hfmem : f ∈ d.fields.filter (fun f => !isExtendEligible f) :=
        List.mem_filter.mpr ⟨hf, by simp [helig]⟩
      exact fieldsLoop_mem scope f _
        (emitField_plain scope f raw t hexp hjson hname hdash hopts hts hty
          hgv habove hopt)
        _ _ _ _ hfmem hfp _ (List.mem_singleton_self _)

/-- The C5 counterexample record: a healthsdk record (healthsdk is one
of the two primary scopes, baseDirs in main.go line 31) with one
embedded, exported, untagged field of the same package. -/
def hsdkRecord : GoStructDecl :=
  { name := "HealthReport", pkgName := "healthsdk",
    posLine := "// From healthsdk/healthsdk.go\n",
    typeParams := [],
    fields :=
      [ { name := "BaseReport", exported := true, embedded := true,
          pkgName := "healthsdk", jsonTag := none, typescriptTag := none,
          ty := .basic .string } ] }

/-- C5 counterexample: the claim predicts that the embedded untagged
same-primary-scope field produces an extends clause and is omitted from
the member list (parts ⟨["BaseReport"], [], []⟩).  The code instead
compares the field's package against the literal "codersdk"
(main.go line 547), so for this healthsdk record the field is emitted
as an ordinary member and no extends clause is generated. -/
theorem embedded_same_scope_not_extended_cex :
    buildStructParts [] hsdkRecord =
        .ok ⟨[], ["  readonly BaseReport: string"], []⟩ ∧
      buildStructParts [] hsdkRecord ≠
        .ok ⟨["BaseReport"], [], []⟩ := by
  constructor
  · rfl
  · decide

/-- The embedded-with-tag field of the C5 witness record. -/
def c5TaggedField : GoField :=
  { name := "Other", exported := true, embedded := true,
    pkgName := "codersdk", jsonTag := some "other_name",
    typescriptTag := none, ty := .basic .string }

/-- The C5 witness record: a codersdk record with one embedded untagged
field (becomes an extends clause) and one embedded field with an
explicit json tag (stays an ordinary member). -/
def c5Record : GoStructDecl :=
  { name := "Workspace", pkgName := "codersdk",
    posLine := "// From codersdk/workspace.go\n",
    typeParams := [],
    fields :=
      [ { name := "Base", exported := true, embedded := true,
          pkgName := "codersdk", jsonTag := none, typescriptTag := none,
          ty := .basic .string },
        c5TaggedField ] }

/-- C5 witness: on the witness record the embedded untagged codersdk
field becomes the only extends clause, and the embedded field with the
explicit json tag is emitted as an ordinary member line. -/
theorem embedded_extends_condition_witness :
    (⟨["Base"], ["  readonly other_name: string"], []⟩ : StructParts).extendsList
        = ["Base"] ∧
      ("  readonly other_name: string") ∈
        (⟨["Base"], ["  readonly other_name: string"], []⟩ :
          StructParts).fieldLines := by
  have h := embedded_extends_condition [] c5Record
    ⟨["Base"], ["  readonly other_name: string"], []⟩ (by rfl)
  refine ⟨by rw [h.1]; rfl, ?_⟩
  exact h.2 c5TaggedField (by decide) "other_name"
    { valueType := "string" } rfl rfl (by decide) (by decide) rfl rfl rfl rfl
    rfl rfl

/-! ## C6: generic parameters are emitted in declaration order -/

/-- A successful reconciliation emits one `name extends constraint`
entry per declared parameter, in declaration order, reading the
constraint from the used-generics map by name only. -/
theorem reconcile_ok_eq (gUsed : List (String × String)) (declName : String) :
    ∀ (ps : List String) (out : List String),
      reconcileGenerics gUsed declName ps = .ok out →
      out = ps.map (fun n => n ++ " extends " ++ ((lookupA gUsed n).getD "")) := by
  intro ps
  induction ps with
  | nil =>
    intro out h
    simp only [reconcileGenerics] at h
    cases h
    rfl
  | cons p ps ih =>
    intro out h
    simp only [reconcileGenerics] at h
    cases hl : lookupA gUsed p with
    | none => rw [hl] at h; cases h
    | some c =>
      rw [hl] at h
      cases hr : reconcileGenerics gUsed declName ps with
      | error e => rw [hr] at h; cases h
      | ok rest =>
        rw [hr] at h
        simp only [Except.map] at h
        cases h
        simp only [List.map_cons, hl, Option.getD_some]
        exact congrArg _ (ih rest hr)

/-- C6: for every record declaration that builds successfully, the
emitted generic parameter list (buildStruct, main.go lines 666-687)
walks the record's declared type parameters in declaration order —
regardless of the order in which the fields referencing them were
traversed, since the used-generics map discovered during the field loop
is consulted only by name. -/
theorem generics_declaration_order (scope : List String) (d : GoStructDecl)
    (p : StructParts) (lines : List String) (gUsed : List (String × String))
    (hf : fieldsPhase scope d = .ok (lines, gUsed))
    (hb : buildStructParts scope d = .ok p) :
    p.generics = d.typeParams.map
      (fun n => n ++ " extends " ++ ((lookupA gUsed n).getD "")) := by
  unfold buildStructParts at hb
  rw [hf] at hb
  dsimp only at hb
  cases hr : reconcileGenerics gUsed d.name d.typeParams with
  | error e => rw [hr] at hb; cases hb
  | ok gens =>
    rw [hr] at hb
    dsimp only at hb
    cases hb
    exact reconcile_ok_eq gUsed d.name d.typeParams gens hr

/-- The C6 witness record: declared with parameters `<A, B>`, but its
fields reference B before A in field order. -/
def c6Record : GoStructDecl :=
  { name := "Pair", pkgName := "codersdk",
    posLine := "// From codersdk/pair.go\n",
    typeParams := ["A", "B"],
    fields :=
      [ { name := "F1", exported := true, embedded := false,
          pkgName := "codersdk", jsonTag := none, typescriptTag := none,
          ty := .typeParam "B" "comparable" true },
        { name := "F2", exported := true, embedded := false,
          pkgName := "codersdk", jsonTag := none, typescriptTag := none,
          ty := .typeParam "A" "comparable" true } ] }

/-- C6 witness: although discovery order in the field loop is B first
(the used-generics map lists B before A), the emitted generic parameter
list follows the declaration order A, B. -/
theorem generics_declaration_order_witness :
    (⟨[], ["  readonly F1: B", "  readonly F2: A"],
        ["A extends comparable", "B extends comparable"]⟩ :
      StructParts).generics =
      ["A extends comparable", "B extends comparable"] := by
  have h := generics_declaration_order [] c6Record
    ⟨[], ["  readonly F1: B", "  readonly F2: A"],
      ["A extends comparable", "B extends comparable"]⟩
    ["  readonly F1: B", "  readonly F2: A"]
    [("B", "comparable"), ("A", "comparable")] (by rfl) (by rfl)
  rw [h]
  rfl

/-! ## C7: unused declared generic parameters are a hard error -/

/-- When some declared parameter is missing from the used-generics map,
reconciliation fails, and the error message names the first such
parameter together with the declaration. -/
theorem reconcile_missing_errors (gUsed : List (String × String))
    (declName : String) :
    ∀ ps : List String, (∃ n ∈ ps, lookupA gUsed n = none) →
      ∃ m, m ∈ ps ∧ lookupA gUsed m = none ∧
        reconcileGenerics gUsed declName ps =
          .error (.err ("generic param " ++ goQuote m ++ " missing on " ++
            goQuote declName ++ ", fix your data structure")) := by
  intro ps
  induction ps with
  | nil => rintro ⟨n, hn, _⟩; cases hn
  | cons p ps ih =>
    rintro ⟨n, hn, hmiss⟩
    by_cases hp : lookupA gUsed p = none
    · exact ⟨p, List.mem_cons_self .., hp,
        by simp only [reconcileGenerics, hp]⟩
    · have hn' : n ∈ ps := by
        rcases List.mem_cons.mp hn with rfl | h
        · exact absurd hmiss hp
        · exact h
      obtain ⟨m, hm, hmm, hrec⟩ := ih ⟨n, hn', hmiss⟩
      refine ⟨m, List.mem_cons_of_mem _ hm, hmm, ?_⟩
      cases hl : lookupA gUsed p with
      | none => exact absurd hl hp
      | some c =>
        simp only [reconcileGenerics, hl, hrec, Except.map]

/-- C7: a record declaring a generic parameter that the used-generics
map discovered from its emitted fields does not bind fails to build
(buildStruct returns an error rather than a declaration), and the error
message names the offending parameter and the record
(main.go lines 672-684). -/
theorem unused_generic_param_errors (scope : List String) (d : GoStructDecl)
    (lines : List String) (gUsed : List (String × String))
    (hf : fieldsPhase scope d = .ok (lines, gUsed))
    (n : String) (hn : n ∈ d.typeParams) (hmiss : lookupA gUsed n = none) :
    ∃ m, m ∈ d.typeParams ∧ lookupA gUsed m = none ∧
      buildStruct scope d =
        .error (.err ("generic param " ++ goQuote m ++ " missing on " ++
          goQuote d.name ++ ", fix your data structure")) := by
  obtain ⟨m, hm, hmm, hrec⟩ :=
    reconcile_missing_errors gUsed d.name d.typeParams ⟨n, hn, hmiss⟩
  refine ⟨m, hm, hmm, ?_⟩
  unfold buildStruct buildStructParts
  rw [hf]
  dsimp only
  rw [hrec]
  rfl

/-- The C7 witness record: declares a parameter A that no field uses. -/
def c7Record : GoStructDecl :=
  { name := "Foo", pkgName := "codersdk",
    posLine := "// From codersdk/foo.go\n",
    typeParams := ["A"],
    fields :=
      [ { name := "Bar", exported := true, embedded := false,
          pkgName := "codersdk", jsonTag := none, typescriptTag := none,
          ty := .basic .string } ] }

/-- C7 witness: building the witness record aborts with the error
naming the unused parameter A and the record Foo. -/
theorem unused_generic_param_errors_witness :
    buildStruct [] c7Record =
      .error (.err ("generic param " ++ goQuote "A" ++ " missing on " ++
        goQuote "Foo" ++ ", fix your data structure")) := by
  obtain ⟨m, hm, _, hres⟩ := unused_generic_param_errors [] c7Record
    ["  readonly Bar: string"] [] (by rfl) "A" (by decide) rfl
  have hmA : m = "A" := by simpa [c7Record] using hm
  rw [hmA] at hres
  exact hres

end Apitypings
